import Mathlib

/-!
Shallow embedding of `src/advanced-vector/vector.h` (template classes
`RawMemory<T>` / `Vector<T>`).

The container state is modelled as a capacity together with the list of live,
constructed elements (`Vector` stores `data_ : RawMemory<T>` and `size_`;
the live elements are the values at indices `[0, size_)` of the buffer, the
capacity is `data_.Capacity()`).  Two models are built:

* `Vec α` — the plain value-level model, used for the functional-correctness
  claims.  The element-shifting loops of `Emplace` and `Erase`
  (`std::move_backward(pos, end() - 1, end())` and
  `std::move(pos + 1, end(), pos)`) are embedded index-by-index.
* `VecE` — the exception model, used for the strong-exception-guarantee
  claim.  Element constructions are counted and the `k`-th constructor
  invocation throws (the test-element model of the specification); operations
  return `Except VecE (VecE × Nat)` where an `error` carries the observable
  container state left behind by the throw.
-/

namespace AdvVector

/-- Observable state of `Vector<T>`: `cap` is `data_.Capacity()`, `elems`
the values of the constructed elements at indices `[0, size_)`, so
`elems.length` is `size_`. -/
structure Vec (α : Type) where
  cap : Nat
  elems : List α
deriving DecidableEq, Repr

namespace Vec

/-- `Vector::Size` — `return size_;` -/
def size (v : Vec α) : Nat := v.elems.length

/-- `Vector::Capacity` — `return data_.Capacity();` -/
def capacity (v : Vec α) : Nat := v.cap

/-- `Vector::Empty` — `return size_ == 0;` -/
def empty (v : Vec α) : Bool := v.elems.length == 0

/-- Class invariant of the data model: `length ≤ storage.capacity`. -/
def valid (v : Vec α) : Prop := v.elems.length ≤ v.cap

instance (v : Vec α) : Decidable v.valid := by unfold valid; infer_instance

end Vec

/-- `std::move_backward(first, last, d_last)` as called in `Vector::Emplace`,
where `last = end() - 1` and `d_last = end()`: every element of
`[first, l.length - 1)` is shifted one slot to the right (the assignments run
backwards in the source, so reading index `i - 1` describes each write). -/
def moveBackwardShift1 (l : List α) (first : Nat) : List α :=
  List.ofFn fun i : Fin l.length =>
    if first < i.1 ∧ i.1 + 1 < l.length then
      l.get ⟨i.1 - 1, Nat.lt_of_le_of_lt (Nat.sub_le _ _) i.2⟩
    else
      l.get i

/-- `std::move(first, last, d_first)` as called in `Vector::Erase`, where
`first = pos + 1`, `last = end()` and `d_first = pos`: every element of
`[first, l.length)` is shifted one slot to the left. -/
def moveLeftShift1 (l : List α) (first : Nat) : List α :=
  List.ofFn fun i : Fin l.length =>
    if h : first ≤ i.1 + 1 ∧ i.1 + 1 < l.length then
      l.get ⟨i.1 + 1, h.2⟩
    else
      l.get i

namespace Vec

/-- `Vector::Emplace(pos, args...)` (value level).  `pos` is the index
`range = pos - begin()`; the result pairs the new state with the returned
iterator's index (`data_ + range`).  Branches follow the source:
if `size_ < data_.Capacity()` then either construct at `end()` (when
`pos == end()`) or construct `temp_value`, move-construct the last element
into the trailing slot, `std::move_backward`, and move-assign the temporary
into slot `range`; otherwise allocate `size_ == 0 ? 1 : size_ * 2` slots,
construct the new element at `range` and transfer `[begin, pos)` and
`[pos, end)` around it (`ReinicializationDataIn`). -/
def emplace (v : Vec α) (pos : Nat) (x : α) : Vec α × Nat :=
  if v.elems.length < v.cap then
    if pos = v.elems.length then
      ({ cap := v.cap, elems := v.elems ++ [x] }, pos)
    else
      let temp_value := x
      let buf1 := v.elems ++ [v.elems.getLastD x]
      let buf2 := moveBackwardShift1 buf1 pos
      ({ cap := v.cap, elems := buf2.set pos temp_value }, pos)
  else
    let newCap := if v.elems.length = 0 then 1 else v.elems.length * 2
    ({ cap := newCap, elems := v.elems.take pos ++ [x] ++ v.elems.drop pos }, pos)

/-- `Vector::Insert(pos, value)` — `return Emplace(pos, value);` (both
overloads forward to `Emplace`). -/
def insert (v : Vec α) (pos : Nat) (x : α) : Vec α × Nat := v.emplace pos x

/-- `Vector::EmplaceBack(args...)` — `return *Emplace(data_ + size_, ...);`
The pair is the new state and the index of the element the returned
reference denotes. -/
def emplaceBack (v : Vec α) (x : α) : Vec α × Nat := v.emplace v.elems.length x

/-- `Vector::PushBack(value)` — `EmplaceBack(std::forward<Value>(value));`
The call's return type is `void` (the reference `EmplaceBack` returns is
discarded), so the pair is the new state and the unit return value. -/
def pushBack (v : Vec α) (x : α) : Vec α × Unit := ((v.emplaceBack x).1, ())

/-- `Vector::PopBack` — destroy the last element, `--size_`. -/
def popBack (v : Vec α) : Vec α := { cap := v.cap, elems := v.elems.dropLast }

/-- `Vector::Erase(pos)` — `std::move(pos + 1, end(), pos); PopBack();`
returns iterator `pos`. -/
def erase (v : Vec α) (pos : Nat) : Vec α × Nat :=
  (popBack { cap := v.cap, elems := moveLeftShift1 v.elems (pos + 1) }, pos)

/-- `Vector::Reserve(new_capacity)` — no-op when
`new_capacity <= data_.Capacity()`, otherwise a new block of exactly
`new_capacity` slots is allocated and the elements are transferred into it
(`ReinicializationDataIn(new_data)` preserves the element values whether it
moves or copies). -/
def reserve (v : Vec α) (n : Nat) : Vec α :=
  if n ≤ v.cap then v else { cap := n, elems := v.elems }

/-- `Vector::Resize(new_size)` — shrink by destroying `[new_size, size_)`;
grow by `Reserve(new_size)` then value-constructing the tail. -/
def resize [Inhabited α] (v : Vec α) (n : Nat) : Vec α :=
  if n ≤ v.elems.length then
    { cap := v.cap, elems := v.elems.take n }
  else
    let v1 := v.reserve n
    { cap := v1.cap,
      elems := v1.elems ++ List.replicate (n - v.elems.length) default }

/-- `Vector::operator=(const Vector&)`, body past the self-assignment check:
when `other.size_ > data_.Capacity()` build `Vector new_data(other)` and
`Swap`; otherwise `std::copy_n` over the common prefix length
`min(other.size_, size_)`, then destroy the shrinking tail or
copy-construct the growing tail, and set `size_ = other.size_`. -/
def copyAssign (self other : Vec α) : Vec α :=
  if self.cap < other.elems.length then
    { cap := other.elems.length, elems := other.elems }
  else
    let m := min other.elems.length self.elems.length
    let assigned := other.elems.take m ++ self.elems.drop m
    if other.elems.length < self.elems.length then
      { cap := self.cap, elems := assigned.take other.elems.length }
    else
      { cap := self.cap,
        elems := assigned ++ other.elems.drop self.elems.length }

/-- `Vector::operator=(const Vector&)` with its `this != &other` guard;
`sameObject` models the pointer comparison, so `sameObject = true` forces
`other` to be the object itself. -/
def copyAssignOp (self other : Vec α) (sameObject : Bool) : Vec α :=
  if sameObject then self else copyAssign self other

/-- `Vector::operator=(Vector&&)` with its `this != &rhs` guard: when the
objects differ it swaps `(data_, size_)`; the pair is the state of the two
objects after the call. -/
def moveAssignOp (self other : Vec α) (sameObject : Bool) : Vec α × Vec α :=
  if sameObject then (self, other) else (other, self)

/-- `Vector::Swap(other)` — swaps `data_` and `size_`; the pair is the state
of the two objects after the call. -/
def swap (self other : Vec α) : Vec α × Vec α := (other, self)

end Vec

theorem getLastD_eq_getElem (l : List α) (d : α) (h : l ≠ []) (hlt : l.length - 1 < l.length) :
    l.getLastD d = l[l.length - 1] := by
  cases l with
  | nil => simp at h
  | cons a t =>
      rw [show (a :: t).getLastD d = (a :: t).getLast (by simp) by
        simp [List.getLastD_eq_getLast?, List.getLast?_eq_getLast]]
      exact List.getLast_eq_getElem _ _

/-- Effect of the spare-capacity interior branch of `Vector::Emplace`:
move-constructing the last element into the trailing slot, shifting
`[pos, end() - 1)` right with `std::move_backward`, and move-assigning the
temporary into slot `pos` produces the sequence with `x` inserted at `pos`. -/
theorem emplace_interior_aux (l : List α) (pos : Nat) (x d : α) (hpos : pos < l.length) :
    (moveBackwardShift1 (l ++ [l.getLastD d]) pos).set pos x
      = l.take pos ++ x :: l.drop pos := by
  have htk : (List.take pos l).length = pos := by rw [List.length_take]; omega
  have hne : l ≠ [] := by intro hl; subst hl; simp at hpos
  apply List.ext_getElem
  · simp [moveBackwardShift1]
    omega
  · intro i h1 h2
    have hi : i < l.length + 1 := by
      simpa [moveBackwardShift1] using h1
    rcases lt_trichotomy i pos with hcmp | hcmp | hcmp
    · rw [List.getElem_set_ne (by omega) (by simpa [moveBackwardShift1] using hi)]
      simp only [moveBackwardShift1]
      rw [List.getElem_ofFn]
      simp only [List.get_eq_getElem]
      rw [if_neg (by omega)]
      rw [List.getElem_append_left (by omega),
          List.getElem_append_left (by omega : i < (List.take pos l).length)]
      rw [List.getElem_take]
    · subst hcmp
      rw [List.getElem_set_self (by simpa [moveBackwardShift1] using hi)]
      rw [List.getElem_append_right (by omega)]
      simp only [htk, Nat.sub_self, List.getElem_cons_zero]
    · rw [List.getElem_set_ne (by omega) (by simpa [moveBackwardShift1] using hi)]
      simp only [moveBackwardShift1]
      rw [List.getElem_ofFn]
      simp only [List.get_eq_getElem]
      by_cases hlt2 : i + 1 < l.length + 1
      · rw [if_pos (by simp only [List.length_append, List.length_cons, List.length_nil]; omega)]
        rw [List.getElem_append_left (by omega)]
        rw [List.getElem_append_right (by omega)]
        rw [List.getElem_cons]
        rw [dif_neg (by omega)]
        rw [List.getElem_drop]
        congr 1
        omega
      · have hieq : i = l.length := by omega
        subst hieq
        rw [if_neg (by simp only [List.length_append, List.length_cons, List.length_nil]; omega)]
        rw [List.getElem_append_right (by omega)]
        have h0 : l.length - l.length = 0 := by omega
        simp only [h0, List.getElem_cons_zero]
        rw [getLastD_eq_getElem l d hne (by omega)]
        rw [List.getElem_append_right (by omega)]
        rw [List.getElem_cons]
        rw [dif_neg (by omega)]
        rw [List.getElem_drop]
        congr 1
        omega

/-- Effect of `std::move(pos + 1, end(), pos)` followed by `PopBack` in
`Vector::Erase`: the element at `pos` is removed. -/
theorem erase_shift_aux (l : List α) (pos : Nat) (hpos : pos < l.length) :
    (moveLeftShift1 l (pos + 1)).dropLast = l.take pos ++ l.drop (pos + 1) := by
  have htk : (List.take pos l).length = pos := by rw [List.length_take]; omega
  apply List.ext_getElem
  · simp [moveLeftShift1]
    omega
  · intro i h1 h2
    have hi : i < l.length - 1 := by
      simpa [moveLeftShift1] using h1
    rw [List.getElem_dropLast]
    simp only [moveLeftShift1]
    rw [List.getElem_ofFn]
    simp only [List.get_eq_getElem]
    rcases Nat.lt_or_ge i pos with hcmp | hcmp
    · rw [dif_neg (by omega)]
      rw [List.getElem_append_left (by omega)]
      rw [List.getElem_take]
    · rw [dif_pos (by omega)]
      rw [List.getElem_append_right (by omega)]
      rw [List.getElem_drop]
      congr 1
      omega

namespace Vec

/-- The element sequence and the returned index of `Emplace`, for any
position within `[begin, end]`. -/
theorem emplace_elems (v : Vec α) (pos : Nat) (x : α) (h : pos ≤ v.elems.length) :
    ((v.emplace pos x).1).elems = v.elems.take pos ++ x :: v.elems.drop pos
      ∧ (v.emplace pos x).2 = pos := by
  unfold emplace
  rcases Nat.lt_or_ge v.elems.length v.cap with hcap | hcap
  · rw [if_pos hcap]
    by_cases hpos : pos = v.elems.length
    · subst hpos
      simp
    · rw [if_neg hpos]
      refine ⟨?_, rfl⟩
      exact emplace_interior_aux v.elems pos x x (by omega)
  · rw [if_neg (by omega)]
    simp

/-- The capacity of the state after `Emplace`: untouched when spare capacity
exists, otherwise `size_ == 0 ? 1 : size_ * 2`. -/
theorem emplace_cap (v : Vec α) (pos : Nat) (x : α) :
    ((v.emplace pos x).1).cap =
      if v.elems.length < v.cap then v.cap
      else if v.elems.length = 0 then 1 else v.elems.length * 2 := by
  unfold emplace
  by_cases hcap : v.elems.length < v.cap
  · by_cases hpos : pos = v.elems.length <;> simp [hcap, hpos]
  · simp [hcap]

/-- Value-level effect of the copy-assignment body: the destination ends up
holding exactly the source's element sequence. -/
theorem copyAssign_elems (self other : Vec α) :
    (copyAssign self other).elems = other.elems := by
  unfold copyAssign
  by_cases hcap : self.cap < other.elems.length
  · simp [hcap]
  · rcases Nat.lt_or_ge other.elems.length self.elems.length with hlen | hlen
    · have hm : min other.elems.length self.elems.length = other.elems.length := by omega
      simp only [if_neg hcap, if_pos hlen, hm, List.take_length, List.take_left']
    · have hm : min other.elems.length self.elems.length = self.elems.length := by omega
      simp only [if_neg hcap, if_neg (by omega : ¬ other.elems.length < self.elems.length), hm]
      rw [List.drop_length, List.append_nil, List.take_append_drop]

/-- Capacity after the copy-assignment body: grown to `other.size_` exactly
when `other.size_ > data_.Capacity()`, otherwise untouched. -/
theorem copyAssign_cap (self other : Vec α) :
    (copyAssign self other).cap =
      if self.cap < other.elems.length then other.elems.length else self.cap := by
  unfold copyAssign
  by_cases hcap : self.cap < other.elems.length
  · simp [hcap]
  · simp only [if_neg hcap]
    by_cases hlen : other.elems.length < self.elems.length <;> simp [hlen]

/-- Length of the element sequence after `Emplace` (any position). -/
theorem emplace_length (v : Vec α) (pos : Nat) (x : α) :
    ((v.emplace pos x).1).elems.length = v.elems.length + 1 := by
  unfold emplace
  by_cases hcap : v.elems.length < v.cap
  · by_cases hpos : pos = v.elems.length
    · simp [hcap, hpos]
    · simp only [if_pos hcap, if_neg hpos, List.length_set, moveBackwardShift1,
        List.length_ofFn, List.length_append, List.length_cons, List.length_nil]
  · simp only [if_neg hcap, List.length_append, List.length_cons, List.length_nil,
      List.length_take, List.length_drop]
    omega

/-- `Emplace` preserves the class invariant `size_ ≤ capacity`. -/
theorem emplace_valid (v : Vec α) (pos : Nat) (x : α) (hv : v.valid) :
    ((v.emplace pos x).1).valid := by
  unfold valid at hv ⊢
  rw [emplace_length, emplace_cap]
  by_cases hcap : v.elems.length < v.cap
  · simp only [if_pos hcap]
    omega
  · simp only [if_neg hcap]
    by_cases h0 : v.elems.length = 0
    · simp [h0]
    · simp only [if_neg h0]
      omega

end Vec

/-- The mutating operations of claim C8, each applied to the tracked vector;
assignment, swap and their sources are carried as values. -/
inductive Op where
  | pushBackOp (x : Nat)
  | emplaceBackOp (x : Nat)
  | insertOp (pos x : Nat)
  | emplaceOp (pos x : Nat)
  | popBackOp
  | eraseOp (pos : Nat)
  | reserveOp (n : Nat)
  | resizeOp (n : Nat)
  | copyAssignFrom (w : Vec Nat)
  | moveAssignFrom (w : Vec Nat)
  | swapWith (w : Vec Nat)

/-- One mutating call on the tracked vector. -/
def applyOp (v : Vec Nat) : Op → Vec Nat
  | .pushBackOp x => (v.pushBack x).1
  | .emplaceBackOp x => (v.emplaceBack x).1
  | .insertOp pos x => (v.insert pos x).1
  | .emplaceOp pos x => (v.emplace pos x).1
  | .popBackOp => v.popBack
  | .eraseOp pos => (v.erase pos).1
  | .reserveOp n => v.reserve n
  | .resizeOp n => v.resize n
  | .copyAssignFrom w => v.copyAssign w
  | .moveAssignFrom w => (Vec.moveAssignOp v w false).1
  | .swapWith w => (v.swap w).1

/-- Well-formedness of an operation's own operands: a vector moved or swapped
into the tracked one must itself satisfy the class invariant. -/
def opWF : Op → Prop
  | .moveAssignFrom w => w.valid
  | .swapWith w => w.valid
  | _ => True

/-- Every single mutating call preserves `0 ≤ length ≤ capacity`. -/
theorem applyOp_valid (v : Vec Nat) (op : Op) (hv : v.valid) (hop : opWF op) :
    (applyOp v op).valid := by
  cases op with
  | pushBackOp x => exact v.emplace_valid _ x hv
  | emplaceBackOp x => exact v.emplace_valid _ x hv
  | insertOp pos x => exact v.emplace_valid pos x hv
  | emplaceOp pos x => exact v.emplace_valid pos x hv
  | popBackOp =>
      unfold Vec.valid at hv ⊢
      simp only [applyOp, Vec.popBack, List.length_dropLast]
      omega
  | eraseOp pos =>
      unfold Vec.valid at hv ⊢
      simp only [applyOp, Vec.erase, Vec.popBack, List.length_dropLast, moveLeftShift1,
        List.length_ofFn]
      omega
  | reserveOp n =>
      unfold Vec.valid at hv ⊢
      simp only [applyOp, Vec.reserve]
      split
      · exact hv
      · next h => show v.elems.length ≤ n; omega
  | resizeOp n =>
      unfold Vec.valid at hv ⊢
      simp only [applyOp, Vec.resize, Vec.reserve]
      split_ifs with h1 h2
      · simp only [List.length_take]
        omega
      · simp only [List.length_append, List.length_replicate]
        omega
      · simp only [List.length_append, List.length_replicate]
        omega
  | copyAssignFrom w =>
      unfold Vec.valid at hv ⊢
      rw [show (applyOp v (.copyAssignFrom w)) = v.copyAssign w from rfl,
        Vec.copyAssign_elems, Vec.copyAssign_cap]
      split <;> omega
  | moveAssignFrom w => exact hop
  | swapWith w => exact hop

/-- Invariant preservation along a whole operation sequence. -/
theorem foldl_applyOp_valid (ops : List Op) (v : Vec Nat) (hv : v.valid)
    (hops : ∀ op ∈ ops, opWF op) : (ops.foldl applyOp v).valid := by
  induction ops generalizing v with
  | nil => exact hv
  | cons op rest ih =>
      simp only [List.foldl_cons]
      exact ih (applyOp v op) (applyOp_valid v op hv (hops op (by simp)))
        (fun o ho => hops o (by simp [ho]))

/-!
Exception model.  The element type is the test type of the specification:
its constructors throw on the `thr`-th constructor invocation (1-based), a
throw happens on entry, before the constructor has any effect.  Assignments
(`std::copy_n`, `std::move`, `std::move_backward`) invoke no constructor and
never throw in this model.  The compile-time type traits consulted by
`ReinicializationDataIn` are carried as booleans.  A live element is
`some v`; `none` is a slot whose value was stolen by a successful move
construction (moved-from).
-/

/-- The two `if constexpr` inputs of `ReinicializationDataIn`:
`std::is_nothrow_move_constructible_v<T>` and
`std::is_copy_constructible_v<T>`. -/
structure Traits where
  nothrowMove : Bool
  copyCtor : Bool
deriving DecidableEq, Repr

/-- An element slot: `some v` live value, `none` moved-from. -/
abbrev MVal := Option Nat

/-- Observable state of the container in the exception model. -/
structure VecE where
  cap : Nat
  elems : List MVal
deriving DecidableEq, Repr

/-- One throwing-capable constructor invocation: the `thr`-th invocation
(1-based) throws, all others succeed and advance the counter. -/
def invoke (thr cnt : Nat) : Except Unit Nat :=
  if cnt + 1 = thr then .error () else .ok (cnt + 1)

/-- A move-constructor invocation: types with a nothrow move constructor
cannot throw (and do not consume a throwing invocation); for all other types
it is an ordinary throwing-capable constructor invocation. -/
def moveCtor (tr : Traits) (thr cnt : Nat) : Except Unit Nat :=
  if tr.nothrowMove then .ok cnt else invoke thr cnt

/-- `std::uninitialized_move_n(src, n, dst)` on the live slots `src`.
On success: the constructed destination range, the source range (every slot
moved-from), and the counter.  On a throw: destination constructs are
destroyed and discarded, and the error carries the source range as the throw
left it — slots already moved are moved-from, the slot whose move threw and
all later slots are untouched. -/
def uninitMoveN (tr : Traits) (thr : Nat) :
    List MVal → Nat → Except (List MVal) (List MVal × List MVal × Nat)
  | [], cnt => .ok ([], [], cnt)
  | x :: xs, cnt =>
      match moveCtor tr thr cnt with
      | .error _ => .error (x :: xs)
      | .ok cnt1 =>
          match uninitMoveN tr thr xs cnt1 with
          | .error rest => .error (none :: rest)
          | .ok (dst, src1, cnt2) => .ok (x :: dst, none :: src1, cnt2)

/-- `std::uninitialized_copy_n(src, n, dst)` on the live slots `src`: each
copy construction may throw; on a throw every already-constructed copy is
destroyed and the source is untouched, so the error carries nothing. -/
def uninitCopyN (thr : Nat) : List MVal → Nat → Except Unit (List MVal × Nat)
  | [], cnt => .ok ([], cnt)
  | x :: xs, cnt =>
      match invoke thr cnt with
      | .error _ => .error ()
      | .ok cnt1 =>
          match uninitCopyN thr xs cnt1 with
          | .error _ => .error ()
          | .ok (dst, cnt2) => .ok (x :: dst, cnt2)

/-- `Vector::ReinicializationDataIn` on a range (both overloads dispatch the
same way): move the elements when
`is_nothrow_move_constructible_v<T> || !is_copy_constructible_v<T>`,
otherwise copy them.  On success: destination range, source range after the
transfer, counter.  On a throw the error carries the source range as the
throw left it. -/
def reinicializeRange (tr : Traits) (thr : Nat) (src : List MVal) (cnt : Nat) :
    Except (List MVal) (List MVal × List MVal × Nat) :=
  if tr.nothrowMove || !tr.copyCtor then
    uninitMoveN tr thr src cnt
  else
    match uninitCopyN thr src cnt with
    | .error _ => .error src
    | .ok (dst, cnt1) => .ok (dst, src, cnt1)

/-- `Vector::Reserve` in the exception model: no-op when
`new_capacity <= data_.Capacity()`; otherwise allocate and transfer via
`ReinicializationDataIn(new_data)`.  An `error` result carries the
observable container state the throw left behind. -/
def reserveE (tr : Traits) (thr : Nat) (st : VecE) (n cnt : Nat) :
    Except VecE (VecE × Nat) :=
  if n ≤ st.cap then .ok (st, cnt)
  else
    match reinicializeRange tr thr st.elems cnt with
    | .error srcAfter => .error { cap := st.cap, elems := srcAfter }
    | .ok (dst, _, cnt1) => .ok ({ cap := n, elems := dst }, cnt1)

/-- `Vector::Emplace` in the exception model, inserting the value `x` at
index `pos`.  Follows the source: with spare capacity either construct at
`end()` or construct `temp_value`, move-construct the last element into the
trailing slot, then shift and assign (assignments cannot throw); without
spare capacity construct the new element in the fresh block first, then
transfer `[begin, pos)` and `[pos, end)` via `ReinicializationDataIn`. -/
def emplaceE (tr : Traits) (thr : Nat) (st : VecE) (pos x cnt : Nat) :
    Except VecE (VecE × Nat) :=
  if st.elems.length < st.cap then
    if pos = st.elems.length then
      match invoke thr cnt with
      | .error _ => .error st
      | .ok cnt1 => .ok ({ cap := st.cap, elems := st.elems ++ [some x] }, cnt1)
    else
      match invoke thr cnt with
      | .error _ => .error st
      | .ok cnt1 =>
          match moveCtor tr thr cnt1 with
          | .error _ => .error st
          | .ok cnt2 =>
              .ok ({ cap := st.cap,
                     elems := st.elems.take pos ++ [some x] ++ st.elems.drop pos },
                   cnt2)
  else
    match invoke thr cnt with
    | .error _ => .error st
    | .ok cnt1 =>
        match reinicializeRange tr thr (st.elems.take pos) cnt1 with
        | .error srcAfter =>
            .error { cap := st.cap, elems := srcAfter ++ st.elems.drop pos }
        | .ok (dst1, srcAfter1, cnt2) =>
            match reinicializeRange tr thr (st.elems.drop pos) cnt2 with
            | .error srcAfter2 =>
                .error { cap := st.cap, elems := srcAfter1 ++ srcAfter2 }
            | .ok (dst2, _, cnt3) =>
                .ok ({ cap := if st.elems.length = 0 then 1 else st.elems.length * 2,
                       elems := dst1 ++ [some x] ++ dst2 },
                     cnt3)

/-- `Vector::operator=(const Vector&)` in the exception model (the two
objects are distinct).  `other.size_ > data_.Capacity()`: build
`Vector new_data(other)` — a plain `uninitialized_copy_n` — and swap.
Otherwise `std::copy_n` over the common prefix (assignments cannot throw),
then destroy the shrinking tail or `uninitialized_copy_n` the growing
tail and set `size_ = other.size_`. -/
def copyAssignE (thr : Nat) (self other : VecE) (cnt : Nat) :
    Except VecE (VecE × Nat) :=
  if self.cap < other.elems.length then
    match uninitCopyN thr other.elems cnt with
    | .error _ => .error self
    | .ok (dst, cnt1) => .ok ({ cap := other.elems.length, elems := dst }, cnt1)
  else
    let m := min other.elems.length self.elems.length
    let assigned := other.elems.take m ++ self.elems.drop m
    if other.elems.length < self.elems.length then
      .ok ({ cap := self.cap, elems := assigned.take other.elems.length }, cnt)
    else
      match uninitCopyN thr (other.elems.drop self.elems.length) cnt with
      | .error _ => .error { cap := self.cap, elems := assigned }
      | .ok (dst, cnt1) =>
          .ok ({ cap := self.cap, elems := assigned ++ dst }, cnt1)

/-- Two `Vec` states with equal fields are equal. -/
theorem vec_eq_of_fields {v w : Vec α} (h1 : v.cap = w.cap) (h2 : v.elems = w.elems) :
    v = w := by
  cases v; cases w; cases h1; cases h2; rfl

/-- A nothrow move constructor makes the whole bulk move infallible: every
element is transferred and every source slot left moved-from, with no
throwing-capable invocation consumed. -/
theorem uninitMoveN_nothrow (tr : Traits) (thr : Nat) (hn : tr.nothrowMove = true) :
    ∀ (src : List MVal) (cnt : Nat),
      uninitMoveN tr thr src cnt = .ok (src, List.replicate src.length none, cnt)
  | [], _ => rfl
  | x :: xs, cnt => by
      simp only [uninitMoveN, moveCtor, hn, if_pos, uninitMoveN_nothrow tr thr hn xs cnt,
        List.length_cons, List.replicate_succ]

/-- A successful bulk move transfers every element in order and leaves every
source slot moved-from. -/
theorem uninitMoveN_ok (tr : Traits) (thr : Nat) :
    ∀ (src : List MVal) (cnt : Nat) (dst sa : List MVal) (cnt1 : Nat),
      uninitMoveN tr thr src cnt = .ok (dst, sa, cnt1) →
      dst = src ∧ sa = List.replicate src.length none := by
  intro src
  induction src with
  | nil => intro cnt dst sa cnt1 h; simp only [uninitMoveN] at h; simp_all
  | cons x xs ih =>
      intro cnt dst sa cnt1 h
      simp only [uninitMoveN] at h
      split at h
      · cases h
      · rename_i c1 hm
        split at h
        · cases h
        · rename_i d2 s2 c2 hr
          simp only [Except.ok.injEq, Prod.mk.injEq] at h
          obtain ⟨hd, hs, _⟩ := h
          obtain ⟨h1, h2⟩ := ih c1 d2 s2 c2 hr
          subst hd hs h1 h2
          simp [List.replicate_succ]

/-- A successful bulk copy transfers every element in order. -/
theorem uninitCopyN_ok (thr : Nat) :
    ∀ (src : List MVal) (cnt : Nat) (dst : List MVal) (cnt1 : Nat),
      uninitCopyN thr src cnt = .ok (dst, cnt1) → dst = src := by
  intro src
  induction src with
  | nil => intro cnt dst cnt1 h; simp only [uninitCopyN] at h; simp_all
  | cons x xs ih =>
      intro cnt dst cnt1 h
      simp only [uninitCopyN] at h
      split at h
      · cases h
      · rename_i c1 hm
        split at h
        · cases h
        · rename_i d2 c2 hr
          simp only [Except.ok.injEq, Prod.mk.injEq] at h
          obtain ⟨hd, _⟩ := h
          subst hd
          rw [ih c1 d2 c2 hr]

/-- For a type that is copy-constructible or nothrow-move-constructible, a
throwing transfer leaves the source range untouched. -/
theorem reinicializeRange_error (tr : Traits) (thr : Nat) (src sa : List MVal) (cnt : Nat)
    (h : tr.copyCtor = true ∨ tr.nothrowMove = true)
    (he : reinicializeRange tr thr src cnt = .error sa) : sa = src := by
  unfold reinicializeRange at he
  rcases hn : tr.nothrowMove with _ | _
  · rcases h with hc | hm
    · rw [hn, hc] at he
      simp only [Bool.false_or, Bool.not_true] at he
      rcases hr : uninitCopyN thr src cnt with u | p <;> rw [hr] at he <;> simp at he
      exact he.symm
    · rw [hn] at hm; cases hm
  · rw [hn] at he
    simp only [Bool.true_or, if_pos] at he
    rw [uninitMoveN_nothrow tr thr hn src cnt] at he
    cases he

/-- For a copy-constructible type without a nothrow move constructor the
transfer copies: on success the destination holds the element values and the
source range is preserved unchanged. -/
theorem reinicializeRange_ok_copy (tr : Traits) (thr : Nat) (src dst sa : List MVal)
    (cnt cnt1 : Nat) (hn : tr.nothrowMove = false) (hc : tr.copyCtor = true)
    (he : reinicializeRange tr thr src cnt = .ok (dst, sa, cnt1)) :
    dst = src ∧ sa = src := by
  unfold reinicializeRange at he
  have hcond : (tr.nothrowMove || !tr.copyCtor) = false := by rw [hn, hc]; rfl
  rw [hcond] at he
  simp only [Bool.false_eq_true, if_false] at he
  split at he
  · cases he
  · rename_i d2 c2 hr
    simp only [Except.ok.injEq, Prod.mk.injEq] at he
    obtain ⟨hd, hs, _⟩ := he
    subst hd hs
    exact ⟨uninitCopyN_ok thr src cnt d2 c2 hr, rfl⟩

/-- Two `VecE` states with equal fields are equal. -/
theorem vecE_eq_of_fields {v w : VecE} (h1 : v.cap = w.cap) (h2 : v.elems = w.elems) :
    v = w := by
  cases v; cases w; cases h1; cases h2; rfl

/-- With a nothrow move constructor the transfer is the bulk move and cannot
throw. -/
theorem reinicializeRange_nothrow (tr : Traits) (thr : Nat) (src : List MVal) (cnt : Nat)
    (hn : tr.nothrowMove = true) :
    reinicializeRange tr thr src cnt = .ok (src, List.replicate src.length none, cnt) := by
  unfold reinicializeRange
  rw [hn]
  simp only [Bool.true_or, if_true]
  exact uninitMoveN_nothrow tr thr hn src cnt

/-- Vector of `n` appended values built by `PushBack`, starting from a
default-constructed (empty, capacity 0) vector. -/
def appendN (n : Nat) : Vec Nat :=
  (List.range n).foldl (fun v k => (v.pushBack k).1) { cap := 0, elems := [] }

/-- C1 (counterexample): the claim fails as stated.  For the test element
type whose first copy construction throws, copy-assigning `[1, 2]` into a
vector holding `[10]` with capacity 2 takes the fits-within-capacity path:
`std::copy_n` overwrites the prefix with `1` before
`std::uninitialized_copy_n` throws while copy-constructing the growing tail,
so the call exits by exception with the element values changed from `[10]`
to `[1]`. -/
theorem c1_strong_guarantee_counterexample :
    copyAssignE 1 { cap := 2, elems := [some 10] }
        { cap := 2, elems := [some 1, some 2] } 0
      = .error { cap := 2, elems := [some 1] } ∧
    ({ cap := 2, elems := [some 1] } : VecE) ≠ { cap := 2, elems := [some 10] } :=
  ⟨rfl, by decide⟩

/-- C1 (amended): for an element type that is copy-constructible or
nothrow-move-constructible, a constructor throw during `Emplace` (hence
`Insert`) or `Reserve` leaves the observable container state exactly as it
was; a constructor throw during copy-assignment leaves it unchanged when the
source's size exceeds the destination's capacity (the build-a-copy-and-swap
path).  In the fits-within-capacity copy-assign path only the basic
guarantee holds (see the counterexample), and for types that are neither
copy-constructible nor nothrow-move-constructible a mid-transfer throw can
leave elements moved-from. -/
theorem c1_strong_guarantee_amended (tr : Traits) (thr : Nat)
    (h : tr.copyCtor = true ∨ tr.nothrowMove = true)
    (st other : VecE) (pos x n cnt : Nat) :
    (∀ st2, emplaceE tr thr st pos x cnt = .error st2 → st2 = st) ∧
    (∀ st2, reserveE tr thr st n cnt = .error st2 → st2 = st) ∧
    (st.cap < other.elems.length →
      ∀ st2, copyAssignE thr st other cnt = .error st2 → st2 = st) := by
  refine ⟨?_, ?_, ?_⟩
  · intro st2 he
    unfold emplaceE at he
    split at he
    · split at he
      · split at he
        · cases he; rfl
        · cases he
      · split at he
        · cases he; rfl
        · split at he
          · cases he; rfl
          · cases he
    · split at he
      · cases he; rfl
      · rename_i c1 h1
        split at he
        · rename_i sa hr
          cases he
          have hsa := reinicializeRange_error tr thr _ sa _ h hr
          exact vecE_eq_of_fields rfl (by rw [hsa, List.take_append_drop])
        · rename_i d1 sa1 c2 hr1
          split at he
          · rename_i sa2 hr2
            cases he
            rcases Bool.eq_false_or_eq_true tr.nothrowMove with hnm | hnm
            · rw [reinicializeRange_nothrow tr thr _ c2 hnm] at hr2
              cases hr2
            · have hcc : tr.copyCtor = true := by
                rcases h with hc | hm
                · exact hc
                · rw [hnm] at hm; cases hm
              have h1s := reinicializeRange_ok_copy tr thr _ d1 sa1 c1 c2 hnm hcc hr1
              have h2s := reinicializeRange_error tr thr _ sa2 c2 h hr2
              exact vecE_eq_of_fields rfl
                (by rw [h1s.2, h2s, List.take_append_drop])
          · cases he
  · intro st2 he
    unfold reserveE at he
    split at he
    · cases he
    · split at he
      · rename_i sa hr
        cases he
        exact vecE_eq_of_fields rfl (reinicializeRange_error tr thr _ sa _ h hr)
      · cases he
  · intro hlt st2 he
    unfold copyAssignE at he
    rw [if_pos hlt] at he
    split at he
    · cases he; rfl
    · cases he

/-- C1 (witness for the amended theorem): a copy-constructible test type
whose first constructor invocation throws, emplacing into a full one-element
vector: the operation throws while constructing the new element and the
state is returned unchanged. -/
theorem c1_strong_guarantee_amended_witness :
    ({ cap := 1, elems := [some 5] } : VecE) = { cap := 1, elems := [some 5] } :=
  (c1_strong_guarantee_amended { nothrowMove := false, copyCtor := true } 1 (Or.inl rfl)
    { cap := 1, elems := [some 5] } { cap := 0, elems := [] } 0 7 9 0).1
    { cap := 1, elems := [some 5] } rfl

/-- C2: inserting value `v` at position `i ∈ [0, length]` of `[x0..xn]`
yields `[x0..x(i-1), v, xi..xn]`, the length grows by one, and the returned
iterator denotes index `i`. -/
theorem c2_insert_sequence (v : Vec α) (pos : Nat) (x : α) (h : pos ≤ v.elems.length) :
    ((v.insert pos x).1).elems = v.elems.take pos ++ x :: v.elems.drop pos ∧
    ((v.insert pos x).1).size = v.size + 1 ∧
    (v.insert pos x).2 = pos := by
  obtain ⟨h1, h2⟩ := v.emplace_elems pos x h
  refine ⟨h1, ?_, h2⟩
  unfold Vec.size
  exact v.emplace_length pos x

/-- C2 (witness): inserting 99 at position 1 of `[10, 20, 30]` (capacity 4). -/
theorem c2_insert_sequence_witness :
    ((Vec.insert { cap := 4, elems := [10, 20, 30] } 1 99).1).elems
        = [10, 20, 30].take 1 ++ 99 :: [10, 20, 30].drop 1 ∧
    ((Vec.insert { cap := 4, elems := [10, 20, 30] } 1 99).1).size
        = Vec.size { cap := 4, elems := [10, 20, 30] } + 1 ∧
    (Vec.insert { cap := 4, elems := [10, 20, 30] } 1 99).2 = 1 :=
  c2_insert_sequence { cap := 4, elems := [10, 20, 30] } 1 99 (by decide)

/-- C3: an insertion that finds no spare capacity (`size_ == capacity`)
allocates `max(1, 2 × capacity)` slots, and appending from empty yields the
capacity values 0, 1, 2, 4, 4, 8, 8, 8, 8 after 0..8 appends (the doubling
sequence 0 → 1 → 2 → 4 → 8). -/
theorem c3_growth_doubling (v : Vec Nat) (pos x : Nat) (hfull : v.elems.length = v.cap) :
    ((v.emplace pos x).1).cap = max 1 (2 * v.cap) ∧
    (List.range 9).map (fun n => (appendN n).cap) = [0, 1, 2, 4, 4, 8, 8, 8, 8] := by
  constructor
  · rw [Vec.emplace_cap, if_neg (by omega)]
    by_cases h0 : v.elems.length = 0
    · rw [if_pos h0]
      omega
    · rw [if_neg h0]
      omega
  · rfl

/-- C3 (witness): emplacing into a full vector of size 2 doubles capacity
to 4. -/
theorem c3_growth_doubling_witness :
    ((Vec.emplace { cap := 2, elems := [5, 6] } 2 7).1).cap = max 1 (2 * 2) ∧
    (List.range 9).map (fun n => (appendN n).cap) = [0, 1, 2, 4, 4, 8, 8, 8, 8] :=
  c3_growth_doubling { cap := 2, elems := [5, 6] } 2 7 rfl

/-- C4: the transfer used by reallocation (`ReinicializationDataIn`) moves
every element exactly when the type's move construction cannot throw or the
type is not copy-constructible (a successful bulk move transfers all values
and leaves every source slot moved-from), and otherwise copy-constructs
every element, preserving all originals both on success and on a throw.
The dispatch is decided once per transfer and applied to the whole range. -/
theorem c4_transfer_policy (tr : Traits) (thr : Nat) (src : List MVal) (cnt : Nat) :
    (tr.nothrowMove = true ∨ tr.copyCtor = false →
        reinicializeRange tr thr src cnt = uninitMoveN tr thr src cnt ∧
        (∀ dst sa cnt1, reinicializeRange tr thr src cnt = .ok (dst, sa, cnt1) →
            dst = src ∧ sa = List.replicate src.length none)) ∧
    (tr.nothrowMove = false → tr.copyCtor = true →
        (∀ dst sa cnt1, reinicializeRange tr thr src cnt = .ok (dst, sa, cnt1) →
            dst = src ∧ sa = src) ∧
        (∀ sa, reinicializeRange tr thr src cnt = .error sa → sa = src)) := by
  constructor
  · intro h
    have hcond : (tr.nothrowMove || !tr.copyCtor) = true := by
      rcases h with h1 | h1 <;> rw [h1] <;> simp
    have heq : reinicializeRange tr thr src cnt = uninitMoveN tr thr src cnt := by
      unfold reinicializeRange
      rw [hcond]
      simp
    refine ⟨heq, ?_⟩
    intro dst sa cnt1 hok
    rw [heq] at hok
    exact uninitMoveN_ok tr thr src cnt dst sa cnt1 hok
  · intro hn hc
    refine ⟨?_, ?_⟩
    · intro dst sa cnt1 hok
      exact reinicializeRange_ok_copy tr thr src dst sa cnt cnt1 hn hc hok
    · intro sa hsa
      exact reinicializeRange_error tr thr src sa cnt (Or.inl hc) hsa

/-- C4 (witness): a nothrow-move type moves both elements of `[1, 2]` and
leaves both source slots moved-from. -/
theorem c4_transfer_policy_witness :
    reinicializeRange { nothrowMove := true, copyCtor := true } 99 [some 1, some 2] 0
        = uninitMoveN { nothrowMove := true, copyCtor := true } 99 [some 1, some 2] 0 ∧
    ([some 1, some 2] = ([some 1, some 2] : List MVal) ∧
      [none, none] = List.replicate ([some 1, some 2] : List MVal).length (none : MVal)) := by
  refine ⟨((c4_transfer_policy { nothrowMove := true, copyCtor := true } 99
    [some 1, some 2] 0).1 (Or.inl rfl)).1, ?_⟩
  exact ((c4_transfer_policy { nothrowMove := true, copyCtor := true } 99
    [some 1, some 2] 0).1 (Or.inl rfl)).2 [some 1, some 2] [none, none] 0 rfl

/-- C5: for `pos ∈ [begin, end)`, `Erase(pos)` produces the old sequence
with the element at `pos` removed (elements after `pos` shifted one slot
left, last slot popped), the length drops by one, the capacity is untouched,
and the returned iterator denotes index `pos`. -/
theorem c5_erase (v : Vec α) (pos : Nat) (h : pos < v.elems.length) :
    ((v.erase pos).1).elems = v.elems.take pos ++ v.elems.drop (pos + 1) ∧
    ((v.erase pos).1).size = v.size - 1 ∧
    ((v.erase pos).1).cap = v.cap ∧
    (v.erase pos).2 = pos := by
  refine ⟨erase_shift_aux v.elems pos h, ?_, rfl, rfl⟩
  unfold Vec.size Vec.erase Vec.popBack
  simp [moveLeftShift1]

/-- C5 (witness): erasing position 1 of `[10, 20, 30]`. -/
theorem c5_erase_witness :
    ((Vec.erase { cap := 4, elems := [10, 20, 30] } 1).1).elems
        = [10, 20, 30].take 1 ++ [10, 20, 30].drop 2 ∧
    ((Vec.erase { cap := 4, elems := [10, 20, 30] } 1).1).size
        = Vec.size { cap := 4, elems := [10, 20, 30] } - 1 ∧
    ((Vec.erase { cap := 4, elems := [10, 20, 30] } 1).1).cap = 4 ∧
    (Vec.erase { cap := 4, elems := ([10, 20, 30] : List Nat) } 1).2 = 1 :=
  c5_erase { cap := 4, elems := [10, 20, 30] } 1 (by decide)

/-- Modelled from the claim's words, for comparison with the source's
`void PushBack(Value&&)`: "pushBack returns a reference to the newly placed
element" would mean the value `PushBack` returns lets the caller read the
newly placed element — some reading of its (unit) return value yields, in
the post-call state, the element just placed. -/
def pushBackReturnValueDenotesNewElem : Prop :=
  ∃ deref : Unit → Nat,
    ∀ (v : Vec Nat) (x : Nat),
      ((Vec.pushBack v x).1).elems[deref (Vec.pushBack v x).2]? = some x

/-- C6 (counterexample): `Vector::PushBack` returns `void`
(`void PushBack(Value&& value)`), so its return value cannot denote the
newly placed element: pushing 5 onto the empty vector places it at index 0,
pushing 6 onto `[5]` places it at index 1, yet both calls return the same
unit value, so no reading of that value can yield the new element in both
post-call states. -/
theorem c6_pushback_returns_void_counterexample :
    (Vec.pushBack { cap := 2, elems := ([] : List Nat) } 5).2
        = (Vec.pushBack { cap := 2, elems := [5] } 6).2 ∧
    ((Vec.pushBack { cap := 2, elems := ([] : List Nat) } 5).1).elems = [5] ∧
    ((Vec.pushBack { cap := 2, elems := [5] } 6).1).elems = [5, 6] ∧
    ¬ pushBackReturnValueDenotesNewElem := by
  refine ⟨rfl, rfl, rfl, ?_⟩
  rintro ⟨deref, hall⟩
  have h1 := hall { cap := 2, elems := [] } 5
  have h2 := hall { cap := 2, elems := [5] } 6
  rw [show ((Vec.pushBack { cap := 2, elems := ([] : List Nat) } 5).1).elems = [5] from rfl,
    show (Vec.pushBack { cap := 2, elems := ([] : List Nat) } 5).2 = () from rfl] at h1
  rw [show ((Vec.pushBack { cap := 2, elems := ([5] : List Nat) } 6).1).elems = [5, 6] from rfl,
    show (Vec.pushBack { cap := 2, elems := ([5] : List Nat) } 6).2 = () from rfl] at h2
  match hd : deref () with
  | 0 =>
      rw [hd] at h2
      simp at h2
  | n + 1 =>
      rw [hd] at h1
      simp at h1

/-- C6 (amended): `PushBack` and `EmplaceBack` each produce the state of
inserting at the end position; `EmplaceBack` returns a reference to the
newly placed element, while `PushBack` returns `void`. -/
theorem c6_pushback_emplaceback (v : Vec α) (x : α) :
    (v.pushBack x).1 = (v.insert v.elems.length x).1 ∧
    (v.pushBack x).2 = () ∧
    v.emplaceBack x = v.insert v.elems.length x ∧
    ((v.emplaceBack x).1).elems[(v.emplaceBack x).2]? = some x := by
  refine ⟨rfl, rfl, rfl, ?_⟩
  unfold Vec.emplaceBack
  rw [(v.emplace_elems v.elems.length x (le_refl _)).2,
      (v.emplace_elems v.elems.length x (le_refl _)).1]
  rw [List.take_length, List.drop_length]
  exact List.getElem?_concat_length v.elems x

/-- C7: `Reserve(n)` with `n ≤ capacity` is a no-op; with `n > capacity` it
yields capacity exactly `n` with the length and element values unchanged. -/
theorem c7_reserve (v : Vec α) (n : Nat) :
    (n ≤ v.cap → v.reserve n = v) ∧
    (v.cap < n →
      (v.reserve n).cap = n ∧ (v.reserve n).size = v.size ∧
      (v.reserve n).elems = v.elems) := by
  constructor
  · intro h
    unfold Vec.reserve
    rw [if_pos h]
  · intro h
    unfold Vec.reserve
    rw [if_neg (by omega)]
    exact ⟨rfl, rfl, rfl⟩

/-- C7 (witness): reserving 1 on capacity 2 is a no-op; reserving 5 grows
the capacity to exactly 5. -/
theorem c7_reserve_witness :
    Vec.reserve { cap := 2, elems := [4] } 1 = { cap := 2, elems := [4] } ∧
    (Vec.reserve { cap := 2, elems := ([4] : List Nat) } 5).cap = 5 :=
  ⟨(c7_reserve { cap := 2, elems := [4] } 1).1 (by decide),
   ((c7_reserve { cap := 2, elems := [4] } 5).2 (by decide)).1⟩

/-- C8: starting from any state satisfying the invariant, every sequence of
mutating calls (append, insert, pop, erase, reserve, resize, assignment,
swap) keeps `0 ≤ length ≤ capacity` after every call, i.e. after every
prefix of the sequence. -/
theorem c8_size_le_capacity (v : Vec Nat) (ops : List Op) (k : Nat) (hv : v.valid)
    (hops : ∀ op ∈ ops, opWF op) :
    ((ops.take k).foldl applyOp v).valid :=
  foldl_applyOp_valid (ops.take k) v hv (fun op ho => hops op (List.take_subset k ops ho))

/-- C8 (witness): a concrete two-operation run from the empty vector. -/
theorem c8_size_le_capacity_witness :
    (([Op.pushBackOp 1, Op.swapWith { cap := 2, elems := [7] }].take 2).foldl applyOp
        { cap := 0, elems := [] }).valid :=
  c8_size_le_capacity { cap := 0, elems := [] }
    [Op.pushBackOp 1, Op.swapWith { cap := 2, elems := [7] }] 2 (by decide)
    (by
      intro op ho
      rcases List.mem_cons.mp ho with h1 | ho2
      · subst h1; exact trivial
      · rcases List.mem_cons.mp ho2 with h2 | h3
        · subst h2
          exact (by decide : Vec.valid { cap := 2, elems := [7] })
        · cases h3)

/-- C9: with spare capacity and an interior position, `Emplace` constructs
the new value into `temp_value` before any element is moved or shifted, so
inserting a value read from the vector's own element `j` still yields the
sequence with the old value of element `j` inserted at `pos`, in particular
at slot `pos` itself. -/
theorem c9_alias_insert (v : Vec Nat) (pos j : Nat) (hcap : v.elems.length < v.cap)
    (hpos : pos < v.elems.length) (hj : j < v.elems.length) :
    ((v.emplace pos (v.elems.getD j 0)).1).elems
        = v.elems.take pos ++ v.elems.getD j 0 :: v.elems.drop pos ∧
    ((v.emplace pos (v.elems.getD j 0)).1).elems[pos]? = some (v.elems.getD j 0) := by
  have h := (v.emplace_elems pos (v.elems.getD j 0) (by omega)).1
  refine ⟨h, ?_⟩
  rw [h, List.getElem?_append_right (by simp only [List.length_take]; omega)]
  simp only [List.length_take]
  have hm : min pos v.elems.length = pos := by omega
  rw [hm, Nat.sub_self]
  simp

/-- C9 (witness): inserting a copy of its own last element `30` at the front
of `[10, 20, 30]` (capacity 4). -/
theorem c9_alias_insert_witness :
    ((Vec.emplace { cap := 4, elems := [10, 20, 30] } 0 ([10, 20, 30].getD 2 0)).1).elems
        = [10, 20, 30].take 0 ++ [10, 20, 30].getD 2 0 :: [10, 20, 30].drop 0 ∧
    ((Vec.emplace { cap := 4, elems := [10, 20, 30] } 0 ([10, 20, 30].getD 2 0)).1).elems[0]?
        = some ([10, 20, 30].getD 2 0) :=
  c9_alias_insert { cap := 4, elems := [10, 20, 30] } 0 2 (by decide) (by decide) (by decide)

/-- C10: self-assignment, by copy or by move, is the guarded no-op of the
source (`this != &other` / `this != &rhs`), and even the unguarded
copy-assignment body maps a valid state onto itself. -/
theorem c10_self_assignment (v : Vec α) (hv : v.valid) :
    Vec.copyAssignOp v v true = v ∧
    Vec.moveAssignOp v v true = (v, v) ∧
    Vec.copyAssign v v = v := by
  refine ⟨rfl, rfl, ?_⟩
  apply vec_eq_of_fields
  · rw [Vec.copyAssign_cap, if_neg (by unfold Vec.valid at hv; omega)]
  · exact Vec.copyAssign_elems v v

/-- C10 (witness): self-assignment of a one-element vector. -/
theorem c10_self_assignment_witness :
    Vec.copyAssignOp { cap := 2, elems := [4] } { cap := 2, elems := [4] } true
        = { cap := 2, elems := ([4] : List Nat) } ∧
    Vec.moveAssignOp { cap := 2, elems := [4] } { cap := 2, elems := [4] } true
        = ({ cap := 2, elems := ([4] : List Nat) }, { cap := 2, elems := [4] }) ∧
    Vec.copyAssign { cap := 2, elems := [4] } { cap := 2, elems := [4] }
        = { cap := 2, elems := ([4] : List Nat) } :=
  c10_self_assignment { cap := 2, elems := [4] } (by decide)

end AdvVector
